import Mathlib

/-!
Verification development for the census benefits analysis utilities
(a shallow embedding of `analysis_utils.py`).

The program is a pandas pipeline: a cached fetch layer downloads tables of
survey variables from a statistical service, a normalization layer rekeys
them by (region code, place name) and applies per-scope ordering rules, and a
derivation layer computes percentage-of-total columns, a poverty composite
column, and a combined left-joined report.

Tables are embedded as a column-name list plus keyed rows of cells; cells are
exact rationals extended with the IEEE-754-style non-finite sentinels that
the host numeric library produces on division by zero.  The external service
is modelled as a world assigning a rational value to every
(geography, variable code) pair, together with the row lists each geography
scope returns.  String comparison and the "total" label test are embedded at
the character level so that every definition evaluates inside the kernel.
-/

namespace CensusAnalysis

/-- A table cell: an exact rational, or one of the IEEE-754-style non-finite
sentinels produced by the host numeric library.  Signed zero is not
modelled (census counts are integers, so it never arises here). -/
inductive Value where
  | fin (q : ℚ)
  | posInf
  | negInf
  | nan
deriving DecidableEq, Repr

/-- Addition of cell values, following IEEE-754 semantics on the sentinels. -/
def Value.add : Value → Value → Value
  | .nan, _ => .nan
  | _, .nan => .nan
  | .posInf, .negInf => .nan
  | .negInf, .posInf => .nan
  | .posInf, _ => .posInf
  | _, .posInf => .posInf
  | .negInf, _ => .negInf
  | _, .negInf => .negInf
  | .fin a, .fin b => .fin (a + b)

/-- Sum of a list of cell values, with the empty sum equal to 0 as in the
host library's row-wise sum. -/
def Value.sum (l : List Value) : Value := l.foldr Value.add (Value.fin 0)

/-- Division of cell values, following IEEE-754 semantics: a nonzero finite
value divided by zero gives a signed infinity and zero divided by zero gives
the not-a-number sentinel, exactly as the host numeric library behaves on
`truediv` with a zero divisor. -/
def Value.div : Value → Value → Value
  | .nan, _ => .nan
  | _, .nan => .nan
  | .fin a, .fin b =>
      if b = 0 then (if a = 0 then .nan else if 0 < a then .posInf else .negInf)
      else .fin (a / b)
  | .fin _, .posInf => .fin 0
  | .fin _, .negInf => .fin 0
  | .posInf, .fin b => if 0 ≤ b then .posInf else .negInf
  | .negInf, .fin b => if 0 ≤ b then .negInf else .posInf
  | .posInf, _ => .nan
  | .negInf, _ => .nan

/-- Numeric sort key of a cell; every cell sorted by the pipeline is finite. -/
def Value.toRat : Value → ℚ
  | .fin q => q
  | _ => 0

/-- Lexicographic strict comparison of character lists by code point, the
order in which the host language compares strings.  Embedded directly so
that it evaluates inside the kernel. -/
def lexLtChars : List Char → List Char → Bool
  | _, [] => false
  | [], _ :: _ => true
  | a :: as, b :: bs =>
      decide (a.toNat < b.toNat) || (decide (a.toNat = b.toNat) && lexLtChars as bs)

/-- String order used by the row sorts: a ≤ b iff not (b < a) lexicographically. -/
def strLe (a b : String) : Bool := !(lexLtChars b.data a.data)

/-- Character-level test that the first list is a prefix of the second. -/
def startsWithChars : List Char → List Char → Bool
  | [], _ => true
  | _ :: _, [] => false
  | a :: as, b :: bs => decide (a = b) && startsWithChars as bs

/-- Embedding of the string `startswith` test used to find "total" columns. -/
def startsWithB (s p : String) : Bool := startsWithChars p.data s.data

/-- One geography descriptor returned by the statistical service:
`regionCode` embeds the code extracted by `idx.params()[0][-1]` (the state
FIPS code for both state and county rows) and `name` embeds `idx.name`. -/
structure Geo where
  regionCode : String
  name : String
deriving DecidableEq, Repr

/-- One table row: its index key and its cells, positionally aligned with the
frame's column names. -/
structure Row (κ : Type) where
  key : κ
  cells : List Value
deriving DecidableEq, Repr

/-- A data frame: ordered column names and keyed rows. -/
structure Frame (κ : Type) where
  cols : List String
  rows : List (Row κ)
deriving DecidableEq, Repr

/-- First value associated to a column name in a (name, cell) association
list; embeds column access by name on positionally aligned cells. -/
def lookupCol (n : String) : List (String × Value) → Option Value
  | [] => none
  | (k, v) :: rest => if k = n then some v else lookupCol n rest

/-- Column selection `frame[names]`: for each requested name, the cell at the
first column position bearing that name. -/
def Frame.select {κ : Type} (f : Frame κ) (names : List String) : Frame κ :=
  ⟨names, f.rows.map fun r =>
    ⟨r.key, names.map fun n => (lookupCol n (f.cols.zip r.cells)).getD Value.nan⟩⟩

/-- The `LanguageVars` catalog: (variable code, label) pairs in source order;
the first entry is the group's total. -/
def LanguageVars : List (String × String) :=
  [("C16001_001E", "total speakers"),
   ("C16001_005E", "spanish speakers"),
   ("C16001_020E", "korean speakers"),
   ("C16001_026E", "vietnamese speakers"),
   ("C16001_035E", "arabic speakers"),
   ("C16001_023E", "chinese (incl. mandarin, cantonese) speakers"),
   ("C16001_008E", "french, haitian, or cajun speakers"),
   ("C16001_011E", "german or other west germanic languages speakers"),
   ("C16001_014E", "russian, polish, or other slavic languages speakers"),
   ("C16001_017E", "other indo-european languages speakers"),
   ("C16001_029E", "tagalog (incl. filipino) speakers"),
   ("C16001_032E", "other asian and pacific island languages speakers"),
   ("C16001_038E", "other and unspecified languages speakers")]

/-- The `PublicAssistanceVars` catalog. -/
def PublicAssistanceVars : List (String × String) :=
  [("B19058_001E", "total public assistance population"),
   ("B19058_002E", "received public assistance")]

/-- The `PovertyLevelVars` catalog. -/
def PovertyLevelVars : List (String × String) :=
  [("B17026_001E", "total poverty"),
   ("B17026_002E", "under 0.5"),
   ("B17026_003E", "0.5 to 0.74"),
   ("B17026_004E", "0.75 to 0.99"),
   ("B17026_005E", "1.00 to 1.24"),
   ("B17026_006E", "1.25 to 1.49"),
   ("B17026_007E", "1.50 to 1.74"),
   ("B17026_008E", "1.75 to 1.84")]

/-- The `TotalPopulationVars` catalog. -/
def TotalPopulationVars : List (String × String) :=
  [("B01003_001E", "total population")]

/-- Union of all county-pipeline variable codes, in the chained order of
`_get_frame_for_all_county_vars`. -/
def all_vars : List String :=
  LanguageVars.map Prod.fst ++ PublicAssistanceVars.map Prod.fst
    ++ PovertyLevelVars.map Prod.fst ++ TotalPopulationVars.map Prod.fst

/-- The external statistical service and its geography scopes: the row list
each scope returns and the numeric value of every (geography, variable)
pair.  The service returns columns in requested order, which the download
embedding below reflects. -/
structure World where
  stateGeos : List Geo
  countyGeos : List Geo
  tribalGeos : List Geo
  value : Geo → String → ℚ

/-- Embedding of one `censusdata.download` call: one row per geography of the
scope, cells in the requested variable order. -/
def downloadFrame (w : World) (geos : List Geo) (vars : List String) : Frame Geo :=
  ⟨vars, geos.map fun g => ⟨g, vars.map fun v => Value.fin (w.value g v)⟩⟩

/-- Embedding of `_get_frame_for_all_county_vars`: a state-scope download of
every catalogued variable concatenated with a county-scope download of the
same variables. -/
def _get_frame_for_all_county_vars (w : World) : Frame Geo :=
  let state_data := downloadFrame w w.stateGeos all_vars
  let county_data := downloadFrame w w.countyGeos all_vars
  ⟨all_vars, state_data.rows ++ county_data.rows⟩

/-- Rekeying of a raw row by (region code, place name), embedding the
`set_index(["state fips", "place name"])` step. -/
def rekeyCounty (r : Row Geo) : Row (String × String) :=
  ⟨(r.key.regionCode, r.key.name), r.cells⟩

/-- The rows of `get_frame_for_county_vars` before sorting: the group's
columns sliced out of the combined fetch and rekeyed. -/
def countyKeyedRows (group : List (String × String)) (w : World) :
    List (Row (String × String)) :=
  (((_get_frame_for_all_county_vars w).select (group.map Prod.fst)).rows).map rekeyCounty

/-- Comparison used by `sort_values(sort_col, ascending=False)`: descending
on the first (total) column's value. -/
abbrev totalDesc {κ : Type} (a b : Row κ) : Prop :=
  Value.toRat (b.cells.headD Value.nan) ≤ Value.toRat (a.cells.headD Value.nan)

/-- Comparison used by `sort_index(level=0, sort_remaining=False)`: ascending
on the region (state FIPS) code. -/
abbrev regionAsc (a b : Row (String × String)) : Prop :=
  strLe a.key.1 b.key.1 = true

/-- Comparison used by the tribal `sort_index()`: ascending on place name. -/
abbrev nameAsc (a b : Row String) : Prop := strLe a.key b.key = true

/-- The intermediate of `get_frame_for_county_vars` after
`sort_values(sort_col, ascending=False)`: rows stably sorted descending by
the group's first (total) column. -/
def countyValueSorted (group : List (String × String)) (w : World) :
    List (Row (String × String)) :=
  List.insertionSort totalDesc (countyKeyedRows group w)

/-- Embedding of `get_frame_for_county_vars`: slice the group out of the
combined fetch, relabel columns, key by (state fips, place name), sort
descending by the total column, then stably sort by region code. -/
def get_frame_for_county_vars (group : List (String × String)) (w : World) :
    Frame (String × String) :=
  ⟨group.map Prod.snd, List.insertionSort regionAsc (countyValueSorted group w)⟩

/-- Embedding of `get_frame_for_state_vars`: a state-scope download of the
group's own codes, relabelled and keyed by (state fips, place name); the
source applies no sort here, so rows stay in download order. -/
def get_frame_for_state_vars (group : List (String × String)) (w : World) :
    Frame (String × String) :=
  ⟨group.map Prod.snd,
   (downloadFrame w w.stateGeos (group.map Prod.fst)).rows.map rekeyCounty⟩

/-- The tribal-area rows in natural download order, keyed by place name. -/
def tribalNaturalRows (group : List (String × String)) (w : World) :
    List (Row String) :=
  (downloadFrame w w.tribalGeos (group.map Prod.fst)).rows.map fun r =>
    ⟨r.key.name, r.cells⟩

/-- Embedding of `get_frame_for_tribal_areas`: a tribal-scope download of the
group's codes, keyed by place name and sorted by the index (`sort_index()`). -/
def get_frame_for_tribal_areas (group : List (String × String)) (w : World) :
    Frame String :=
  ⟨group.map Prod.snd, List.insertionSort nameAsc (tribalNaturalRows group w)⟩

/-- Embedding of `get_percentages`: every column whose name differs from the
first column's name, divided row-wise by the first-named column; the divisor
column is dropped.  The source indexes `frame.columns[0]`, so an empty
column list never reaches this function in the pipeline; that branch is
given a default empty result. -/
def get_percentages {κ : Type} (f : Frame κ) : Frame κ :=
  match f.cols.head? with
  | none => ⟨[], []⟩
  | some d =>
    ⟨f.cols.filter fun c => !decide (c = d),
     f.rows.map fun r =>
       ⟨r.key,
        ((f.cols.zip r.cells).filter fun p => !decide (p.1 = d)).map fun p =>
          p.2.div ((lookupCol d (f.cols.zip r.cells)).getD Value.nan)⟩⟩

/-- The composite step of `get_poverty_level_data`: sum every column whose
label does not start with "total" into a new "under 185%" column appended at
the end, and drop the summed columns. -/
def aggregate_threshold {κ : Type} (f : Frame κ) : Frame κ :=
  ⟨(f.cols.filter fun c => startsWithB c "total") ++ ["under 185%"],
   f.rows.map fun r =>
     ⟨r.key,
      ((f.cols.zip r.cells).filter fun p => startsWithB p.1 "total").map Prod.snd
        ++ [Value.sum (((f.cols.zip r.cells).filter fun p =>
              !startsWithB p.1 "total").map Prod.snd)]⟩⟩

/-- Embedding of `get_total_population`. -/
def get_total_population (w : World) : Frame (String × String) :=
  get_frame_for_county_vars TotalPopulationVars w

/-- Embedding of `get_county_language_data`. -/
def get_county_language_data (w : World) : Frame (String × String) :=
  get_percentages (get_frame_for_county_vars LanguageVars w)

/-- Embedding of `get_public_assistance_data`. -/
def get_public_assistance_data (w : World) : Frame (String × String) :=
  get_percentages (get_frame_for_county_vars PublicAssistanceVars w)

/-- Embedding of `get_poverty_level_data`: the composite threshold step
followed by the percentage derivation. -/
def get_poverty_level_data (w : World) : Frame (String × String) :=
  get_percentages (aggregate_threshold (get_frame_for_county_vars PovertyLevelVars w))

/-- One left-join block: the matches of a left row against the right frame,
or a single row padded with the missing-value sentinel when no key matches. -/
def joinRow {κ : Type} [DecidableEq κ] (r : Frame κ) (lr : Row κ) : List (Row κ) :=
  let ms := r.rows.filter fun rr => decide (rr.key = lr.key)
  if ms.isEmpty then [⟨lr.key, lr.cells ++ r.cols.map fun _ => Value.nan⟩]
  else ms.map fun rr => ⟨lr.key, lr.cells ++ rr.cells⟩

/-- Embedding of the pandas left `join` on the index: anchored on the left
frame's rows, columns appended. -/
def Frame.join {κ : Type} [DecidableEq κ] (l r : Frame κ) : Frame κ :=
  ⟨l.cols ++ r.cols, l.rows.flatMap (joinRow r)⟩

/-- Embedding of `get_county_census_data`: the population table left-joined
with each derived table in turn. -/
def get_county_census_data (w : World) : Frame (String × String) :=
  (((get_total_population w).join (get_public_assistance_data w)).join
      (get_poverty_level_data w)).join (get_county_language_data w)

/-- Embedding of `get_wic_coverage_frame`: exact-name row selection
`frame[frame.index == state_name]` on the coverage spreadsheet (passed in as
a frame, since the spreadsheet is external data); the final `.style.format`
call only formats the display, so the modelled result is the selected data. -/
def get_wic_coverage_frame (sheet : Frame String) (state_name : String) :
    Frame String :=
  ⟨sheet.cols, sheet.rows.filter fun r => decide (r.key = state_name)⟩

/-- The tribal table built inside `get_styled_tribal_data`: tribal totals
joined with tribal language percentages. -/
def tribal_language_data (w : World) : Frame String :=
  (get_frame_for_tribal_areas TotalPopulationVars w).join
    (get_percentages (get_frame_for_tribal_areas LanguageVars w))

/-- Embedding of `get_styled_tribal_data`: exact-name row selection of the
requested tribal area on the joined tribal table; the display call only
renders the result. -/
def get_styled_tribal_data (w : World) (tribe : String) : Frame String :=
  ⟨(tribal_language_data w).cols,
   (tribal_language_data w).rows.filter fun r => decide (r.key = tribe)⟩

/-- Argument tuple of one fetch call. -/
structure FetchArgs where
  dataset : String
  year : ℕ
  scope : String
  vars : List String
deriving DecidableEq, Repr

/-- Modelled from the spec: the memoization decorator applied to the fetch
functions comes from the external `data_cache` package, which is not part of
this repository's source; section 4.1 of the spec describes an in-process
cache keyed by the argument tuple with exactly one external call per
distinct tuple.  The cache state is the memo table plus a count of external
calls observed. -/
structure CacheState (α : Type) where
  entries : List (FetchArgs × α)
  externalCalls : ℕ

/-- Lookup of an argument tuple in the memo table. -/
def lookupArgs {α : Type} (a : FetchArgs) : List (FetchArgs × α) → Option α
  | [] => none
  | (k, v) :: rest => if k = a then some v else lookupArgs a rest

/-- Modelled from the spec: one memoized fetch call.  A hit returns the
cached table unchanged; a miss calls the external service once, stores the
result and counts the external call. -/
def cachedFetch {α : Type} (svc : FetchArgs → α) (a : FetchArgs)
    (s : CacheState α) : α × CacheState α :=
  match lookupArgs a s.entries with
  | some t => (t, s)
  | none => (svc a, ⟨(a, svc a) :: s.entries, s.externalCalls + 1⟩)

/-- The rows of the spec-side comparand for the combined-fetch refinement:
the group's variables fetched alone, at the same state and county scopes,
then rekeyed exactly as the combined path does. -/
def groupAloneKeyedRows (group : List (String × String)) (w : World) :
    List (Row (String × String)) :=
  ((downloadFrame w w.stateGeos (group.map Prod.fst)).rows
    ++ (downloadFrame w w.countyGeos (group.map Prod.fst)).rows).map rekeyCounty

/-- Spec-side comparand for the combined-fetch refinement claim: fetch the
group alone for the same geography scopes and apply the identical
relabel, rekey and sort pipeline. -/
def get_frame_for_group_fetched_alone (group : List (String × String))
    (w : World) : Frame (String × String) :=
  ⟨group.map Prod.snd,
   List.insertionSort regionAsc
     (List.insertionSort totalDesc (groupAloneKeyedRows group w))⟩

/-! ## Order lemmas for the embedded string comparison -/

lemma lexLtChars_irrefl : ∀ as, lexLtChars as as = false := by
  intro as
  induction as with
  | nil => rfl
  | cons a as ih => simp [lexLtChars, ih]

lemma lexLtChars_asymm : ∀ as bs, lexLtChars as bs = true → lexLtChars bs as = false := by
  intro as
  induction as with
  | nil =>
    intro bs h
    cases bs with
    | nil => simp [lexLtChars] at h
    | cons b bs => simp [lexLtChars]
  | cons a as ih =>
    intro bs h
    cases bs with
    | nil => simp [lexLtChars] at h
    | cons b bs =>
      simp only [lexLtChars, Bool.or_eq_true, Bool.and_eq_true, decide_eq_true_eq] at h
      rw [Bool.eq_false_iff]
      intro h2
      simp only [lexLtChars, Bool.or_eq_true, Bool.and_eq_true, decide_eq_true_eq] at h2
      rcases h with h | ⟨he, hr⟩
      · rcases h2 with h2 | ⟨he2, _⟩ <;> omega
      · rcases h2 with h2 | ⟨he2, hr2⟩
        · omega
        · have h3 := ih bs hr
          rw [h3] at hr2
          simp at hr2

lemma lexLtChars_split : ∀ as bs cs, lexLtChars cs as = true →
    lexLtChars cs bs = true ∨ lexLtChars bs as = true := by
  intro as
  induction as with
  | nil =>
    intro bs cs h
    cases cs <;> simp [lexLtChars] at h
  | cons a as ih =>
    intro bs cs h
    cases cs with
    | nil =>
      cases bs with
      | nil => right; simp [lexLtChars]
      | cons b bs => left; simp [lexLtChars]
    | cons c cs =>
      simp only [lexLtChars, Bool.or_eq_true, Bool.and_eq_true, decide_eq_true_eq] at h
      cases bs with
      | nil => right; simp [lexLtChars]
      | cons b bs =>
        rcases Nat.lt_trichotomy c.toNat b.toNat with hlt | heq | hgt
        · left
          simp only [lexLtChars, Bool.or_eq_true, Bool.and_eq_true, decide_eq_true_eq]
          exact Or.inl hlt
        · rcases h with h | ⟨he, hr⟩
          · right
            simp only [lexLtChars, Bool.or_eq_true, Bool.and_eq_true, decide_eq_true_eq]
            exact Or.inl (by omega)
          · rcases ih bs cs hr with hl | hr2
            · left
              simp only [lexLtChars, Bool.or_eq_true, Bool.and_eq_true, decide_eq_true_eq]
              exact Or.inr ⟨heq, hl⟩
            · right
              simp only [lexLtChars, Bool.or_eq_true, Bool.and_eq_true, decide_eq_true_eq]
              exact Or.inr ⟨by omega, hr2⟩
        · right
          simp only [lexLtChars, Bool.or_eq_true, Bool.and_eq_true, decide_eq_true_eq]
          rcases h with h | ⟨he, _⟩
          · exact Or.inl (by omega)
          · exact Or.inl (by omega)

lemma strLe_refl (a : String) : strLe a a = true := by
  simp [strLe, lexLtChars_irrefl]

lemma strLe_total (a b : String) : strLe a b = true ∨ strLe b a = true := by
  unfold strLe
  cases h : lexLtChars b.data a.data with
  | false => left; rfl
  | true => right; rw [lexLtChars_asymm _ _ h]; rfl

lemma strLe_trans {a b c : String} (h1 : strLe a b = true) (h2 : strLe b c = true) :
    strLe a c = true := by
  simp only [strLe, Bool.not_eq_true'] at h1 h2 ⊢
  cases h : lexLtChars c.data a.data with
  | false => rfl
  | true =>
    rcases lexLtChars_split a.data b.data c.data h with hcb | hba
    · rw [hcb] at h2; simp at h2
    · rw [hba] at h1; simp at h1

instance {κ : Type} : IsTotal (Row κ) totalDesc :=
  ⟨fun _ _ => le_total _ _⟩

instance {κ : Type} : IsTrans (Row κ) totalDesc :=
  ⟨fun _ _ _ h1 h2 => le_trans h2 h1⟩

instance : IsTotal (Row (String × String)) regionAsc :=
  ⟨fun _ _ => strLe_total _ _⟩

instance : IsTrans (Row (String × String)) regionAsc :=
  ⟨fun _ _ _ h1 h2 => strLe_trans h1 h2⟩

instance : IsTotal (Row String) nameAsc :=
  ⟨fun _ _ => strLe_total _ _⟩

instance : IsTrans (Row String) nameAsc :=
  ⟨fun _ _ _ h1 h2 => strLe_trans h1 h2⟩

/-! ## Stability of the embedded stable sort

The two row sorts of the county normalizer are stable; these lemmas capture
stability as preservation of the subsequence of rows selected by a predicate
on which the sort relation is reflexive. -/

lemma filter_orderedInsert_neg {α : Type} (r : α → α → Prop) [DecidableRel r]
    (p : α → Bool) (a : α) (hpa : p a = false) :
    ∀ l, (List.orderedInsert r a l).filter p = l.filter p := by
  intro l
  induction l with
  | nil => simp [List.orderedInsert, hpa]
  | cons b bs ih =>
    by_cases hr : r a b
    · simp [List.orderedInsert, hr, List.filter_cons, hpa]
    · rw [List.orderedInsert, if_neg hr, List.filter_cons, List.filter_cons, ih]

lemma filter_orderedInsert_pos {α : Type} (r : α → α → Prop) [DecidableRel r]
    (p : α → Bool) (a : α) (hpa : p a = true) :
    ∀ l, (∀ b ∈ l, p b = true → r a b) →
      (List.orderedInsert r a l).filter p = a :: l.filter p := by
  intro l
  induction l with
  | nil => intro _; simp [List.orderedInsert, hpa]
  | cons b bs ih =>
    intro h
    by_cases hr : r a b
    · simp [List.orderedInsert, hr, List.filter_cons, hpa]
    · have hpb : p b = false := by
        cases hpb : p b with
        | true => exact absurd (h b (by simp) hpb) hr
        | false => rfl
      rw [List.orderedInsert, if_neg hr, List.filter_cons, hpb]
      rw [List.filter_cons, hpb]
      simp only [Bool.false_eq_true, if_false]
      exact ih fun x hx hpx => h x (List.mem_cons_of_mem b hx) hpx

lemma filter_insertionSort {α : Type} (r : α → α → Prop) [DecidableRel r]
    (p : α → Bool) (h : ∀ a b, p a = true → p b = true → r a b) :
    ∀ l, (List.insertionSort r l).filter p = l.filter p := by
  intro l
  induction l with
  | nil => rfl
  | cons a l ih =>
    cases hpa : p a with
    | false =>
      rw [List.insertionSort, filter_orderedInsert_neg r p a hpa, ih,
        List.filter_cons, hpa]
      simp
    | true =>
      rw [List.insertionSort,
        filter_orderedInsert_pos r p a hpa _ (fun b _ hpb => h a b hpa hpb), ih,
        List.filter_cons, hpa]
      simp

/-! ## Structural lemmas about the pipeline -/

lemma lookupCol_zip_self (f : String → Value) :
    ∀ (l : List String) (c : String), c ∈ l →
      lookupCol c (l.zip (l.map f)) = some (f c) := by
  intro l
  induction l with
  | nil => simp
  | cons a as ih =>
    intro c hc
    rw [List.map_cons, List.zip_cons_cons, lookupCol]
    by_cases h : a = c
    · subst h; simp
    · rw [if_neg h]
      rcases List.mem_cons.mp hc with h' | h'
      · exact absurd h'.symm h
      · exact ih c h'

lemma countyKeyedRows_map_key (group : List (String × String)) (w : World) :
    (countyKeyedRows group w).map Row.key
      = (w.stateGeos ++ w.countyGeos).map fun g => (g.regionCode, g.name) := by
  simp only [countyKeyedRows, _get_frame_for_all_county_vars, Frame.select,
    downloadFrame, rekeyCounty, List.map_map, List.map_append]
  rfl

lemma county_rows_perm (group : List (String × String)) (w : World) :
    (get_frame_for_county_vars group w).rows.Perm (countyKeyedRows group w) :=
  (List.perm_insertionSort regionAsc _).trans
    (List.perm_insertionSort totalDesc _)

lemma county_map_key_perm (group : List (String × String)) (w : World) :
    ((get_frame_for_county_vars group w).rows.map Row.key).Perm
      ((w.stateGeos ++ w.countyGeos).map fun g => (g.regionCode, g.name)) := by
  have h1 := (county_rows_perm group w).map Row.key
  rwa [countyKeyedRows_map_key] at h1

lemma get_percentages_cols {κ : Type} (f : Frame κ) (d : String) (rest : List String)
    (hc : f.cols = d :: rest) (hd : d ∉ rest) : (get_percentages f).cols = rest := by
  unfold get_percentages
  rw [hc]
  have hrest : ∀ c ∈ rest, (!decide (c = d)) = true := by
    intro c hcr
    simp [ne_of_mem_of_not_mem hcr hd]
  simp [List.filter_cons, List.filter_eq_self.mpr hrest]

lemma get_percentages_row_at {κ : Type} (f : Frame κ) (d : String) (rest : List String)
    (hc : f.cols = d :: rest) (hd : d ∉ rest) (i : ℕ) (r : Row κ)
    (hi : f.rows[i]? = some r) (c0 : Value) (ct : List Value)
    (hcell : r.cells = c0 :: ct) (hlen : ct.length = rest.length) :
    (get_percentages f).rows[i]? = some ⟨r.key, ct.map fun v => v.div c0⟩ := by
  haveI : ∀ p ∈ rest.zip ct, (!decide (p.1 = d)) = true := by
    intro p hp
    simp [ne_of_mem_of_not_mem (List.of_mem_zip hp).1 hd]
  unfold get_percentages
  rw [hc]
  simp only [List.head?_cons, List.getElem?_map, hi, Option.map_some']
  congr 1
  rw [hcell, List.zip_cons_cons]
  rw [lookupCol, if_pos rfl]
  rw [List.filter_cons, show (!decide (d = d)) = false by simp,
    List.filter_eq_self.mpr this]
  simp only [Bool.false_eq_true, if_false, Option.getD_some]
  have hcomp : (fun p : String × Value => p.2.div c0)
      = (fun v => v.div c0) ∘ Prod.snd := rfl
  rw [hcomp, ← List.map_map, List.map_snd_zip rest ct (le_of_eq hlen)]

/-- C1: the percentage derivation drops exactly the total column: on a table
whose first column name does not recur (the data-model invariant for
normalized tables), the output has one fewer column, none named as the
total, and on every row whose total value is a nonzero rational q, the cell
under each remaining column equals the corresponding input cell divided
by q. -/
theorem C1_get_percentages_drops_total_and_divides {κ : Type} (f : Frame κ)
    (d : String) (rest : List String) (hc : f.cols = d :: rest) (hd : d ∉ rest)
    (hwf : ∀ r ∈ f.rows, r.cells.length = f.cols.length) :
    ((get_percentages f).cols = rest
      ∧ (get_percentages f).cols.length + 1 = f.cols.length
      ∧ d ∉ (get_percentages f).cols)
    ∧ ∀ (i : ℕ) (r : Row κ), f.rows[i]? = some r → ∀ q : ℚ,
        r.cells.head? = some (Value.fin q) → q ≠ 0 →
        ∃ r' : Row κ, (get_percentages f).rows[i]? = some r' ∧ r'.key = r.key
          ∧ ∀ (j : ℕ) (a : ℚ), r.cells[j + 1]? = some (Value.fin a) →
              r'.cells[j]? = some (Value.fin (a / q)) := by
  have hcols := get_percentages_cols f d rest hc hd
  refine ⟨⟨hcols, by rw [hcols, hc]; rfl, by rw [hcols]; exact hd⟩, ?_⟩
  intro i r hi q hq hq0
  cases hcell : r.cells with
  | nil => rw [hcell] at hq; simp at hq
  | cons c0 ct =>
    have hc0 : c0 = Value.fin q := by
      rw [hcell] at hq
      simpa using hq
    have hlen : ct.length = rest.length := by
      have hL := hwf r (List.getElem?_mem hi)
      rw [hcell, hc] at hL
      simpa using hL
    refine ⟨⟨r.key, ct.map fun v => v.div c0⟩,
      get_percentages_row_at f d rest hc hd i r hi c0 ct hcell hlen, rfl, ?_⟩
    intro j a ha
    rw [List.getElem?_cons_succ] at ha
    show (ct.map fun v => v.div c0)[j]? = some (Value.fin (a / q))
    rw [List.getElem?_map, ha, Option.map_some', hc0]
    rw [show (Value.fin a).div (Value.fin q) = Value.fin (a / q) by
      simp [Value.div, hq0]]

/-- C1 witness: the theorem applied to a concrete two-column language table
with a nonzero total. -/
theorem C1_witness :
    (((⟨["total speakers", "spanish speakers"],
          [⟨("01", "Alabama"), [Value.fin 100, Value.fin 10]⟩]⟩ : Frame (String × String)).cols
        = "total speakers" :: ["spanish speakers"])
      ∧ "total speakers" ∉ ["spanish speakers"]
      ∧ (∀ r ∈ (⟨["total speakers", "spanish speakers"],
            [⟨("01", "Alabama"), [Value.fin 100, Value.fin 10]⟩]⟩ : Frame (String × String)).rows,
          r.cells.length = 2))
    ∧ ((get_percentages (⟨["total speakers", "spanish speakers"],
          [⟨("01", "Alabama"), [Value.fin 100, Value.fin 10]⟩]⟩ : Frame (String × String))).cols
        = ["spanish speakers"]
      ∧ (get_percentages (⟨["total speakers", "spanish speakers"],
          [⟨("01", "Alabama"), [Value.fin 100, Value.fin 10]⟩]⟩ : Frame (String × String))).cols.length + 1 = 2
      ∧ "total speakers" ∉ (get_percentages (⟨["total speakers", "spanish speakers"],
          [⟨("01", "Alabama"), [Value.fin 100, Value.fin 10]⟩]⟩ : Frame (String × String))).cols) :=
  ⟨⟨by decide, by decide, by decide⟩,
    (C1_get_percentages_drops_total_and_divides _ "total speakers" ["spanish speakers"]
      (by decide) (by decide) (by decide)).1⟩

/-- C2: county normalization orders rows by sorting descending on the
group's total column and then stably sorting by region code: the final rows
are weakly sorted ascending by region code (hence rows of one region are
contiguous), they are a permutation of the value-sorted intermediate, and
within any fixed region code the row order of the value-sorted intermediate
is preserved exactly. -/
theorem C2_county_rows_region_grouped_value_ordered
    (group : List (String × String)) (w : World) :
    List.Sorted regionAsc (get_frame_for_county_vars group w).rows
    ∧ List.Sorted totalDesc (countyValueSorted group w)
    ∧ (get_frame_for_county_vars group w).rows.Perm (countyValueSorted group w)
    ∧ ∀ rc : String,
        (get_frame_for_county_vars group w).rows.filter
            (fun r => decide (r.key.1 = rc))
          = (countyValueSorted group w).filter (fun r => decide (r.key.1 = rc)) := by
  refine ⟨List.sorted_insertionSort regionAsc _,
    List.sorted_insertionSort totalDesc _,
    List.perm_insertionSort regionAsc _, ?_⟩
  intro rc
  exact filter_insertionSort regionAsc _
    (fun a b ha hb => by
      have ha' : a.key.1 = rc := by simpa using ha
      have hb' : b.key.1 = rc := by simpa using hb
      show strLe a.key.1 b.key.1 = true
      rw [ha', hb']
      exact strLe_refl rc) _

/-- C3 counterexample: a world whose state scope returns two states with
place names out of alphabetical order and whose tribal scope returns two
areas out of alphabetical order.  The state table keeps the download order
(so it is not sorted by place name) and the tribal table is sorted (so it is
not in natural index order); the claim asserts the opposite pairing, and
both of its conjuncts fail here. -/
theorem C3_counterexample :
    ¬ (List.Sorted (fun a b : Row (String × String) => strLe a.key.2 b.key.2 = true)
          (get_frame_for_state_vars [("B01003_001E", "total population")]
            ⟨[⟨"02", "b state"⟩, ⟨"01", "a state"⟩], [],
             [⟨"", "b area"⟩, ⟨"", "a area"⟩], fun _ _ => 0⟩).rows
        ∧ (get_frame_for_tribal_areas [("B01003_001E", "total population")]
              ⟨[⟨"02", "b state"⟩, ⟨"01", "a state"⟩], [],
               [⟨"", "b area"⟩, ⟨"", "a area"⟩], fun _ _ => 0⟩).rows.map Row.key
            = (tribalNaturalRows [("B01003_001E", "total population")]
                ⟨[⟨"02", "b state"⟩, ⟨"01", "a state"⟩], [],
                 [⟨"", "b area"⟩, ⟨"", "a area"⟩], fun _ _ => 0⟩).map Row.key) := by
  decide

/-- C3 amended: the source applies no sort in the state-scope accessor, so
its rows keep the natural download order; the tribal-area accessor sorts its
rows by place name (ascending), producing a sorted permutation of the
natural-order rows. -/
theorem C3_amended_state_natural_tribal_sorted
    (group : List (String × String)) (w : World) :
    (get_frame_for_state_vars group w).rows.map Row.key
      = w.stateGeos.map (fun g => (g.regionCode, g.name))
    ∧ List.Sorted nameAsc (get_frame_for_tribal_areas group w).rows
    ∧ (get_frame_for_tribal_areas group w).rows.Perm (tribalNaturalRows group w)
    ∧ (tribalNaturalRows group w).map Row.key = w.tribalGeos.map Geo.name := by
  refine ⟨?_, List.sorted_insertionSort nameAsc _,
    List.perm_insertionSort nameAsc _, ?_⟩
  · simp only [get_frame_for_state_vars, downloadFrame, rekeyCounty, List.map_map]
    rfl
  · simp only [tribalNaturalRows, downloadFrame, List.map_map]
    rfl

lemma countyKeyedRows_eq_groupAlone (group : List (String × String)) (w : World)
    (h : ∀ c ∈ group.map Prod.fst, c ∈ all_vars) :
    countyKeyedRows group w = groupAloneKeyedRows group w := by
  unfold countyKeyedRows groupAloneKeyedRows _get_frame_for_all_county_vars
    Frame.select downloadFrame
  simp only [List.map_append, List.map_map]
  congr 1
  all_goals
    apply List.map_congr_left
    intro g _
    simp only [Function.comp_apply]
    unfold rekeyCounty
    simp only [Row.mk.injEq, true_and]
    apply List.map_congr_left
    intro p hp
    simp only [Function.comp_apply]
    rw [lookupCol_zip_self (fun v => Value.fin (w.value g v)) all_vars p.1
      (h p.1 (List.mem_map_of_mem Prod.fst hp))]
    rfl

/-- C4: for any variable group whose codes all belong to the combined
download's variable list (true of every catalogued group), slicing the
group's columns out of the single combined fetch and relabelling them, as
the county accessor does, produces exactly the table that fetching the
group alone at the same state and county scopes would produce: equal keys,
columns, values and row order. -/
theorem C4_combined_fetch_slicing_refines_group_fetch
    (group : List (String × String)) (w : World)
    (h : ∀ c ∈ group.map Prod.fst, c ∈ all_vars) :
    get_frame_for_county_vars group w = get_frame_for_group_fetched_alone group w := by
  unfold get_frame_for_county_vars get_frame_for_group_fetched_alone countyValueSorted
  rw [countyKeyedRows_eq_groupAlone group w h]

/-- C4 witness: the refinement instantiated at the language group over a
small concrete world. -/
theorem C4_witness :
    (∀ c ∈ LanguageVars.map Prod.fst, c ∈ all_vars)
    ∧ get_frame_for_county_vars LanguageVars
          ⟨[⟨"01", "Alabama"⟩], [⟨"01", "Autauga County, Alabama"⟩], [], fun _ _ => 1⟩
        = get_frame_for_group_fetched_alone LanguageVars
          ⟨[⟨"01", "Alabama"⟩], [⟨"01", "Autauga County, Alabama"⟩], [], fun _ _ => 1⟩ :=
  ⟨by decide,
    C4_combined_fetch_slicing_refines_group_fetch LanguageVars _ (by decide)⟩

/-- C5: two consecutive memoized fetch calls with an identical argument
tuple, starting from a cache with no entry for that tuple, return the same
table; the second call is a cache hit that leaves the state unchanged, and
exactly one external call is recorded for the tuple. -/
theorem C5_cached_fetch_single_external_call {α : Type} (svc : FetchArgs → α)
    (a : FetchArgs) (s : CacheState α) (h : lookupArgs a s.entries = none) :
    (cachedFetch svc a (cachedFetch svc a s).2).1 = (cachedFetch svc a s).1
    ∧ (cachedFetch svc a (cachedFetch svc a s).2).2 = (cachedFetch svc a s).2
    ∧ (cachedFetch svc a s).2.externalCalls = s.externalCalls + 1 := by
  unfold cachedFetch
  rw [h]
  simp [lookupArgs]

/-- C5 witness: the theorem applied to a concrete service and argument tuple
over the empty cache. -/
theorem C5_witness :
    (lookupArgs (⟨"acs5", 2019, "state", ["B01003_001E"]⟩ : FetchArgs)
        (([] : List (FetchArgs × Frame Geo))) = none)
    ∧ ((cachedFetch (fun _ => (⟨["B01003_001E"], []⟩ : Frame Geo))
            (⟨"acs5", 2019, "state", ["B01003_001E"]⟩ : FetchArgs)
            (cachedFetch (fun _ => (⟨["B01003_001E"], []⟩ : Frame Geo))
              (⟨"acs5", 2019, "state", ["B01003_001E"]⟩ : FetchArgs) ⟨[], 0⟩).2).1
        = (cachedFetch (fun _ => (⟨["B01003_001E"], []⟩ : Frame Geo))
            (⟨"acs5", 2019, "state", ["B01003_001E"]⟩ : FetchArgs) ⟨[], 0⟩).1
      ∧ (cachedFetch (fun _ => (⟨["B01003_001E"], []⟩ : Frame Geo))
            (⟨"acs5", 2019, "state", ["B01003_001E"]⟩ : FetchArgs)
            (cachedFetch (fun _ => (⟨["B01003_001E"], []⟩ : Frame Geo))
              (⟨"acs5", 2019, "state", ["B01003_001E"]⟩ : FetchArgs) ⟨[], 0⟩).2).2
        = (cachedFetch (fun _ => (⟨["B01003_001E"], []⟩ : Frame Geo))
            (⟨"acs5", 2019, "state", ["B01003_001E"]⟩ : FetchArgs) ⟨[], 0⟩).2
      ∧ (cachedFetch (fun _ => (⟨["B01003_001E"], []⟩ : Frame Geo))
            (⟨"acs5", 2019, "state", ["B01003_001E"]⟩ : FetchArgs)
            ⟨[], 0⟩).2.externalCalls = 0 + 1) :=
  ⟨rfl, C5_cached_fetch_single_external_call _ _ _ rfl⟩

lemma value_sum_map_fin : ∀ qs : List ℚ, Value.sum (qs.map Value.fin) = Value.fin qs.sum := by
  intro qs
  induction qs with
  | nil => rfl
  | cons q qs ih =>
    rw [List.map_cons, List.sum_cons]
    show Value.add (Value.fin q) (Value.sum (qs.map Value.fin)) = _
    rw [ih]
    rfl

lemma zip_map_fin_filter (pb : String → Bool) :
    ∀ (cols : List String) (qs : List ℚ),
      ((cols.zip (qs.map Value.fin)).filter fun p => pb p.1).map Prod.snd
        = (((cols.zip qs).filter fun p => pb p.1).map Prod.snd).map Value.fin := by
  intro cols
  induction cols with
  | nil => intro qs; rfl
  | cons c cs ih =>
    intro qs
    cases qs with
    | nil => rfl
    | cons q qs' =>
      rw [List.map_cons, List.zip_cons_cons, List.zip_cons_cons,
        List.filter_cons, List.filter_cons]
      cases hpc : pb c with
      | true => simp only [hpc, if_true, List.map_cons, ih]
      | false => simp only [hpc, Bool.false_eq_true, if_false, ih]

lemma aggregate_threshold_row_at {κ : Type} (f : Frame κ) (i : ℕ) (r : Row κ)
    (hi : f.rows[i]? = some r) (qs : List ℚ) (hq : r.cells = qs.map Value.fin) :
    (aggregate_threshold f).rows[i]? = some ⟨r.key,
      ((((f.cols.zip qs).filter fun p => startsWithB p.1 "total").map
          Prod.snd).map Value.fin)
        ++ [Value.fin ((((f.cols.zip qs).filter fun p =>
              !startsWithB p.1 "total").map Prod.snd).sum)]⟩ := by
  unfold aggregate_threshold
  rw [List.getElem?_map, hi, Option.map_some']
  congr 1
  rw [hq, zip_map_fin_filter (fun s => startsWithB s "total") f.cols qs,
    zip_map_fin_filter (fun s => !startsWithB s "total") f.cols qs,
    value_sum_map_fin]

/-- C6: the poverty composite step keeps exactly the columns that start with
"total" and appends one composite column, so on every table the output
column count is the retained column count plus one; on every row of every
table whose cells are finite rationals, the composite cell equals the
rational sum of that row's included (non-total) cells while the retained
total cells are kept unchanged.  The subsequent percentage derivation
divides the composite by the total: a total of 200 with included
sub-buckets 20 and 30 yields a composite of 50 and a percentage of
(20 + 30) / 200 = 0.25 (instantiated in the witness). -/
theorem C6_aggregate_threshold_composite (k : String × String) (t x y : ℚ)
    (b1 b2 : String) (h1 : startsWithB b1 "total" = false)
    (h2 : startsWithB b2 "total" = false) (ht : t ≠ 0) :
    (∀ (γ : Type) (f : Frame γ),
        (aggregate_threshold f).cols
          = (f.cols.filter fun c => startsWithB c "total") ++ ["under 185%"]
        ∧ (aggregate_threshold f).cols.length
          = (f.cols.filter fun c => startsWithB c "total").length + 1)
    ∧ (∀ (γ : Type) (f : Frame γ) (i : ℕ) (r : Row γ), f.rows[i]? = some r →
        ∀ qs : List ℚ, r.cells = qs.map Value.fin →
        (aggregate_threshold f).rows[i]? = some ⟨r.key,
          ((((f.cols.zip qs).filter fun p => startsWithB p.1 "total").map
              Prod.snd).map Value.fin)
            ++ [Value.fin ((((f.cols.zip qs).filter fun p =>
                  !startsWithB p.1 "total").map Prod.snd).sum)]⟩)
    ∧ aggregate_threshold (⟨["total poverty", b1, b2],
          [⟨k, [Value.fin t, Value.fin x, Value.fin y]⟩]⟩ : Frame (String × String))
        = ⟨["total poverty", "under 185%"], [⟨k, [Value.fin t, Value.fin (x + y)]⟩]⟩
    ∧ get_percentages (aggregate_threshold (⟨["total poverty", b1, b2],
          [⟨k, [Value.fin t, Value.fin x, Value.fin y]⟩]⟩ : Frame (String × String)))
        = ⟨["under 185%"], [⟨k, [Value.fin ((x + y) / t)]⟩]⟩ := by
  have hT : startsWithB "total poverty" "total" = true := by decide
  have hagg : aggregate_threshold (⟨["total poverty", b1, b2],
      [⟨k, [Value.fin t, Value.fin x, Value.fin y]⟩]⟩ : Frame (String × String))
      = ⟨["total poverty", "under 185%"], [⟨k, [Value.fin t, Value.fin (x + y)]⟩]⟩ := by
    unfold aggregate_threshold
    simp [hT, h1, h2, Value.sum, Value.add, List.filter_cons]
  refine ⟨fun γ f => ⟨rfl, by simp [aggregate_threshold]⟩,
    fun γ f i r hi qs hq => aggregate_threshold_row_at f i r hi qs hq,
    hagg, ?_⟩
  rw [hagg]
  have hne : ¬ (("under 185%" : String) = "total poverty") := by decide
  unfold get_percentages
  simp [lookupCol, List.filter_cons, hne, Value.div, ht]

/-- C6 witness: the theorem applied to the spec's end-to-end poverty
scenario, a total of 200 with included sub-buckets 20 and 30, whose
percentage value equals 0.25. -/
theorem C6_witness :
    (startsWithB "under 0.5" "total" = false
      ∧ startsWithB "0.5 to 0.74" "total" = false
      ∧ (200 : ℚ) ≠ 0)
    ∧ get_percentages (aggregate_threshold
          (⟨["total poverty", "under 0.5", "0.5 to 0.74"],
            [⟨("01", "Autauga County, Alabama"),
              [Value.fin 200, Value.fin 20, Value.fin 30]⟩]⟩ : Frame (String × String)))
        = ⟨["under 185%"],
            [⟨("01", "Autauga County, Alabama"), [Value.fin ((20 + 30) / 200)]⟩]⟩
    ∧ ((20 + 30 : ℚ) / 200) = 1 / 4 :=
  ⟨⟨by decide, by decide, by norm_num⟩,
    (C6_aggregate_threshold_composite ("01", "Autauga County, Alabama") 200 20 30
      "under 0.5" "0.5 to 0.74" (by decide) (by decide) (by norm_num)).2.2.2,
    by norm_num⟩

lemma length_filter_eq_one_of_nodup {α : Type} [DecidableEq α] :
    ∀ ks : List α, ks.Nodup → ∀ k ∈ ks,
      (ks.filter fun x => decide (x = k)).length = 1 := by
  intro ks
  induction ks with
  | nil => intro _ k hk; cases hk
  | cons a as ih =>
    intro h k hk
    rw [List.nodup_cons] at h
    rcases List.mem_cons.mp hk with rfl | hk'
    · rw [List.filter_cons, if_pos (by simp)]
      have hnil : as.filter (fun x => decide (x = k)) = [] := by
        rw [List.filter_eq_nil_iff]
        intro x hx
        simp only [decide_eq_true_eq]
        intro hxk
        exact h.1 (hxk ▸ hx)
      simp [hnil]
    · have hak : a ≠ k := fun hak => h.1 (hak ▸ hk')
      rw [List.filter_cons, if_neg (by simp [hak])]
      exact ih h.2 k hk'

lemma map_key_percentages {κ : Type} (f : Frame κ) (d : String)
    (hc : f.cols.head? = some d) :
    (get_percentages f).rows.map Row.key = f.rows.map Row.key := by
  unfold get_percentages
  rw [hc]
  simp only [List.map_map]
  rfl

lemma map_key_aggregate {κ : Type} (f : Frame κ) :
    (aggregate_threshold f).rows.map Row.key = f.rows.map Row.key := by
  unfold aggregate_threshold
  simp only [List.map_map]
  rfl

lemma filter_key_length_le_one {κ : Type} [DecidableEq κ] (rows : List (Row κ))
    (h : (rows.map Row.key).Nodup) (k : κ) :
    (rows.filter fun rr => decide (rr.key = k)).length ≤ 1 := by
  induction rows with
  | nil => simp
  | cons r rs ih =>
    rw [List.map_cons, List.nodup_cons] at h
    by_cases hk : r.key = k
    · rw [List.filter_cons, if_pos (by simp [hk])]
      have hnil : rs.filter (fun rr => decide (rr.key = k)) = [] := by
        rw [List.filter_eq_nil_iff]
        intro rr hrr
        simp only [decide_eq_true_eq]
        intro hrrk
        exact h.1 (by rw [hk, ← hrrk]; exact List.mem_map_of_mem Row.key hrr)
      simp [hnil]
    · rw [List.filter_cons, if_neg (by simp [hk])]
      exact ih h.2

lemma joinRow_map_key {κ : Type} [DecidableEq κ] (r : Frame κ) (lr : Row κ)
    (h : (r.rows.map Row.key).Nodup) : (joinRow r lr).map Row.key = [lr.key] := by
  unfold joinRow
  cases he : (r.rows.filter fun rr => decide (rr.key = lr.key)).isEmpty with
  | true => simp [he]
  | false =>
    have hne : r.rows.filter (fun rr => decide (rr.key = lr.key)) ≠ [] := by
      intro hnil
      rw [hnil] at he
      simp at he
    have hlen := filter_key_length_le_one r.rows h lr.key
    have h1 : (r.rows.filter fun rr => decide (rr.key = lr.key)).length = 1 := by
      have h0 : 0 < (r.rows.filter fun rr => decide (rr.key = lr.key)).length :=
        List.length_pos.mpr hne
      omega
    obtain ⟨a, ha⟩ := List.length_eq_one.mp h1
    simp [he, ha]

lemma flatMap_joinRow_map_key {κ : Type} [DecidableEq κ] (r : Frame κ)
    (h : (r.rows.map Row.key).Nodup) :
    ∀ ls : List (Row κ), ((ls.flatMap (joinRow r)).map Row.key) = ls.map Row.key := by
  intro ls
  induction ls with
  | nil => rfl
  | cons x xs ih =>
    rw [List.flatMap_cons, List.map_append, joinRow_map_key r x h, ih]
    rfl

lemma join_rows_map_key {κ : Type} [DecidableEq κ] (l r : Frame κ)
    (h : (r.rows.map Row.key).Nodup) :
    (l.join r).rows.map Row.key = l.rows.map Row.key := by
  unfold Frame.join
  exact flatMap_joinRow_map_key r h l.rows

/-- C7: the combined county report is a left join anchored on the population
table: its row keys are exactly the population table's row keys in order
(hence equal row count), every population key occurs exactly once when the
geography keys are distinct, and in general a left row whose key no right
row matches still appears, padded with the not-a-number missing marker,
rather than being dropped. -/
theorem C7_combined_report_left_join_on_population (w : World)
    (hnd : ((w.stateGeos ++ w.countyGeos).map fun g => (g.regionCode, g.name)).Nodup) :
    ((get_county_census_data w).rows.map Row.key
        = (get_total_population w).rows.map Row.key)
    ∧ (get_county_census_data w).rows.length = (get_total_population w).rows.length
    ∧ (∀ k ∈ (get_total_population w).rows.map Row.key,
        (((get_county_census_data w).rows.map Row.key).filter
          fun x => decide (x = k)).length = 1)
    ∧ ∀ (l r : Frame (String × String)) (lr : Row (String × String)), lr ∈ l.rows →
        (∀ rr ∈ r.rows, rr.key ≠ lr.key) →
        (⟨lr.key, lr.cells ++ r.cols.map fun _ => Value.nan⟩ : Row (String × String))
          ∈ (l.join r).rows := by
  have hPA : ((get_public_assistance_data w).rows.map Row.key).Nodup := by
    rw [get_public_assistance_data,
      map_key_percentages (get_frame_for_county_vars PublicAssistanceVars w)
        "total public assistance population" rfl]
    exact (county_map_key_perm PublicAssistanceVars w).nodup_iff.mpr hnd
  have hPov : ((get_poverty_level_data w).rows.map Row.key).Nodup := by
    rw [get_poverty_level_data,
      map_key_percentages
        (aggregate_threshold (get_frame_for_county_vars PovertyLevelVars w))
        "total poverty" rfl,
      map_key_aggregate]
    exact (county_map_key_perm PovertyLevelVars w).nodup_iff.mpr hnd
  have hLang : ((get_county_language_data w).rows.map Row.key).Nodup := by
    rw [get_county_language_data,
      map_key_percentages (get_frame_for_county_vars LanguageVars w)
        "total speakers" rfl]
    exact (county_map_key_perm LanguageVars w).nodup_iff.mpr hnd
  have hkeys : (get_county_census_data w).rows.map Row.key
      = (get_total_population w).rows.map Row.key := by
    rw [get_county_census_data, join_rows_map_key _ _ hLang,
      join_rows_map_key _ _ hPov, join_rows_map_key _ _ hPA]
  have hPk : ((get_total_population w).rows.map Row.key).Nodup :=
    (county_map_key_perm TotalPopulationVars w).nodup_iff.mpr hnd
  refine ⟨hkeys, ?_, ?_, ?_⟩
  · have := congrArg List.length hkeys
    simpa using this
  · intro k hk
    rw [hkeys]
    exact length_filter_eq_one_of_nodup _ hPk k hk
  · intro l r lr hl hnone
    unfold Frame.join
    apply List.mem_flatMap.mpr
    refine ⟨lr, hl, ?_⟩
    unfold joinRow
    have hnil : r.rows.filter (fun rr => decide (rr.key = lr.key)) = [] := by
      rw [List.filter_eq_nil_iff]
      intro rr hrr
      simp [hnone rr hrr]
    rw [hnil]
    simp

/-- C7 witness: the theorem applied to a concrete world with one state row
and one county row carrying distinct keys. -/
theorem C7_witness :
    ((((⟨[⟨"01", "Alabama"⟩], [⟨"01", "Autauga County, Alabama"⟩], [],
          fun _ _ => 1⟩ : World)).stateGeos
        ++ ((⟨[⟨"01", "Alabama"⟩], [⟨"01", "Autauga County, Alabama"⟩], [],
          fun _ _ => 1⟩ : World)).countyGeos).map
        (fun g => (g.regionCode, g.name))).Nodup
    ∧ (get_county_census_data
          ⟨[⟨"01", "Alabama"⟩], [⟨"01", "Autauga County, Alabama"⟩], [],
            fun _ _ => 1⟩).rows.map Row.key
        = (get_total_population
            ⟨[⟨"01", "Alabama"⟩], [⟨"01", "Autauga County, Alabama"⟩], [],
              fun _ _ => 1⟩).rows.map Row.key :=
  ⟨by decide,
    (C7_combined_report_left_join_on_population _ (by decide)).1⟩

/-- A concrete table with a zero total: one row whose total-speakers value
is 0 and whose spanish-speakers count is 5. -/
def zeroTotalFrame : Frame (String × String) :=
  ⟨["total speakers", "spanish speakers"],
   [⟨("01", "Elsewhere County"), [Value.fin 0, Value.fin 5]⟩]⟩

/-- C8 counterexample: on the zero-total row the ratio cell produced by the
percentage derivation is positive infinity, not the not-a-number sentinel
the claim asserts, so the claim's "not-a-number-like result in that row's
ratio cells" fails at this input. -/
theorem C8_counterexample :
    ((get_percentages zeroTotalFrame).rows
        = [⟨("01", "Elsewhere County"), [Value.posInf]⟩])
    ∧ ¬ (∀ r ∈ (get_percentages zeroTotalFrame).rows, ∀ v ∈ r.cells,
          v = Value.nan) := by
  constructor
  · decide
  · decide

/-- C8 amended: on a row whose total is zero the percentage derivation still
produces a row (no error is raised; the embedded operation is total): each
ratio cell is one of the IEEE-754-style sentinels, positive infinity for a
positive cell, negative infinity for a negative cell, and not-a-number only
for a zero cell. -/
theorem C8_amended_zero_total_yields_sentinels {κ : Type} (f : Frame κ)
    (d : String) (rest : List String) (hc : f.cols = d :: rest) (hd : d ∉ rest)
    (i : ℕ) (r : Row κ) (hi : f.rows[i]? = some r)
    (hz : r.cells.head? = some (Value.fin 0))
    (hwf : r.cells.length = f.cols.length) :
    ∃ r' : Row κ, (get_percentages f).rows[i]? = some r' ∧ r'.key = r.key
      ∧ (∀ v ∈ r'.cells, v = Value.nan ∨ v = Value.posInf ∨ v = Value.negInf)
      ∧ ∀ (j : ℕ) (a : ℚ), r.cells[j + 1]? = some (Value.fin a) →
          r'.cells[j]? = some (if a = 0 then Value.nan
            else if 0 < a then Value.posInf else Value.negInf) := by
  cases hcell : r.cells with
  | nil => rw [hcell] at hz; simp at hz
  | cons c0 ct =>
    have hc0 : c0 = Value.fin 0 := by
      rw [hcell] at hz
      simpa using hz
    have hlen : ct.length = rest.length := by
      rw [hcell, hc] at hwf
      simpa using hwf
    refine ⟨⟨r.key, ct.map fun v => v.div c0⟩,
      get_percentages_row_at f d rest hc hd i r hi c0 ct hcell hlen, rfl, ?_, ?_⟩
    · intro v hv
      rw [List.mem_map] at hv
      obtain ⟨x, _, hx⟩ := hv
      rw [← hx, hc0]
      cases x with
      | fin a =>
        by_cases ha : a = 0
        · left; simp [Value.div, ha]
        · by_cases ha' : 0 < a
          · right; left; simp [Value.div, ha, ha']
          · right; right; simp [Value.div, ha, ha']
      | posInf => right; left; simp [Value.div]
      | negInf => right; right; simp [Value.div]
      | nan => left; simp [Value.div]
    · intro j a ha
      rw [List.getElem?_cons_succ] at ha
      show (ct.map fun v => v.div c0)[j]? = _
      rw [List.getElem?_map, ha, Option.map_some', hc0]
      by_cases h0 : a = 0
      · simp [Value.div, h0]
      · by_cases h1 : 0 < a
        · simp [Value.div, h0, h1]
        · simp [Value.div, h0, h1]

/-- C8 witness: the amended theorem applied to the concrete zero-total
table. -/
theorem C8_witness :
    (zeroTotalFrame.cols = "total speakers" :: ["spanish speakers"]
      ∧ "total speakers" ∉ ["spanish speakers"]
      ∧ zeroTotalFrame.rows[0]?
          = some ⟨("01", "Elsewhere County"), [Value.fin 0, Value.fin 5]⟩
      ∧ ([Value.fin 0, Value.fin 5].head? = some (Value.fin 0))
      ∧ ([Value.fin 0, Value.fin 5] : List Value).length = zeroTotalFrame.cols.length)
    ∧ ∃ r' : Row (String × String),
        (get_percentages zeroTotalFrame).rows[0]? = some r'
        ∧ r'.key = (⟨("01", "Elsewhere County"),
            [Value.fin 0, Value.fin 5]⟩ : Row (String × String)).key
        ∧ (∀ v ∈ r'.cells, v = Value.nan ∨ v = Value.posInf ∨ v = Value.negInf)
        ∧ ∀ (j : ℕ) (a : ℚ),
            (⟨("01", "Elsewhere County"), [Value.fin 0, Value.fin 5]⟩ :
              Row (String × String)).cells[j + 1]? = some (Value.fin a) →
            r'.cells[j]? = some (if a = 0 then Value.nan
              else if 0 < a then Value.posInf else Value.negInf) :=
  ⟨⟨by decide, by decide, by decide, by decide, by decide⟩,
    C8_amended_zero_total_yields_sentinels zeroTotalFrame "total speakers"
      ["spanish speakers"] (by decide) (by decide) 0 _ (by decide) (by decide)
      (by decide)⟩

lemma filter_key_eq_nil {κ : Type} [DecidableEq κ] (rows : List (Row κ)) (k : κ)
    (h : k ∉ rows.map Row.key) :
    rows.filter (fun r => decide (r.key = k)) = [] := by
  rw [List.filter_eq_nil_iff]
  intro r hr
  simp only [decide_eq_true_eq]
  intro hk
  exact h (hk ▸ List.mem_map_of_mem Row.key hr)

/-- C9: a coverage-sheet lookup by an absent region display name and a
tribal lookup by an absent tribal-area identifier both complete (the
embedded operations are total) and return a result with no matching rows,
rather than failing. -/
theorem C9_missing_geography_yields_empty_result (sheet : Frame String)
    (state_name : String) (w : World) (tribe : String)
    (h1 : state_name ∉ sheet.rows.map Row.key)
    (h2 : tribe ∉ (tribal_language_data w).rows.map Row.key) :
    (get_wic_coverage_frame sheet state_name).rows = []
    ∧ (get_styled_tribal_data w tribe).rows = [] := by
  constructor
  · exact filter_key_eq_nil sheet.rows state_name h1
  · exact filter_key_eq_nil (tribal_language_data w).rows tribe h2

/-- C9 witness: the theorem applied to a one-row coverage sheet that does
not contain the requested region name and a world with no tribal areas. -/
theorem C9_witness :
    (("Atlantis" ∉ (⟨["Coverage Rate"], [⟨"Alabama", [Value.fin 1]⟩]⟩ :
          Frame String).rows.map Row.key)
      ∧ "Anywhere" ∉ (tribal_language_data ⟨[], [], [], fun _ _ => 0⟩).rows.map Row.key)
    ∧ (get_wic_coverage_frame (⟨["Coverage Rate"], [⟨"Alabama", [Value.fin 1]⟩]⟩ :
          Frame String) "Atlantis").rows = []
    ∧ (get_styled_tribal_data ⟨[], [], [], fun _ _ => 0⟩ "Anywhere").rows = [] :=
  ⟨⟨by decide, by decide⟩,
    C9_missing_geography_yields_empty_result _ "Atlantis" _ "Anywhere"
      (by decide) (by decide)⟩

/-- C10: the combined fetch concatenates a state-scope download with the
county-scope download, so every per-group county table contains one row per
state geography, keyed by the state's region code and name, and its total
row count is the state count plus the county count. -/
theorem C10_county_tables_include_state_rows (group : List (String × String))
    (w : World) (g : Geo) (hg : g ∈ w.stateGeos) :
    ((g.regionCode, g.name) ∈ (get_frame_for_county_vars group w).rows.map Row.key)
    ∧ (get_frame_for_county_vars group w).rows.length
        = w.stateGeos.length + w.countyGeos.length := by
  constructor
  · apply (county_map_key_perm group w).mem_iff.mpr
    exact List.mem_map_of_mem _ (List.mem_append_left _ hg)
  · rw [(county_rows_perm group w).length_eq]
    simp [countyKeyedRows, Frame.select, _get_frame_for_all_county_vars,
      downloadFrame]

/-- C10 witness: the theorem applied to the population group over a world
with one state and one county. -/
theorem C10_witness :
    ((⟨"01", "Alabama"⟩ : Geo) ∈ (⟨[⟨"01", "Alabama"⟩],
        [⟨"01", "Autauga County, Alabama"⟩], [], fun _ _ => 0⟩ : World).stateGeos)
    ∧ (("01", "Alabama") ∈ (get_frame_for_county_vars TotalPopulationVars
          ⟨[⟨"01", "Alabama"⟩], [⟨"01", "Autauga County, Alabama"⟩], [],
            fun _ _ => 0⟩).rows.map Row.key)
    ∧ (get_frame_for_county_vars TotalPopulationVars
          ⟨[⟨"01", "Alabama"⟩], [⟨"01", "Autauga County, Alabama"⟩], [],
            fun _ _ => 0⟩).rows.length = 1 + 1 :=
  ⟨by decide,
    (C10_county_tables_include_state_rows TotalPopulationVars
      ⟨[⟨"01", "Alabama"⟩], [⟨"01", "Autauga County, Alabama"⟩], [], fun _ _ => 0⟩
      ⟨"01", "Alabama"⟩ (by decide)).1,
    (C10_county_tables_include_state_rows TotalPopulationVars
      ⟨[⟨"01", "Alabama"⟩], [⟨"01", "Autauga County, Alabama"⟩], [], fun _ _ => 0⟩
      ⟨"01", "Alabama"⟩ (by decide)).2⟩

end CensusAnalysis
